import Mathlib

/-!
Shallow embedding of the capture-extraction script
src/data/extract_data_from_capture.py.

A raw USB frame is the `Data` column of the capture CSV, a string of
characters modelled as `List Char`; Python slicing `s[a:b]` (with
non-negative bounds) is `pySlice`, and the permissive Python semantics
(out-of-range slices silently truncate to shorter or empty strings) is
preserved.  `int(s, 16)` is modelled by `pyIntHex`, including the
tolerance of the Python parser for surrounding whitespace and a leading
sign on short slices.  The per-annotation loop of the script, with its
`assert len(usb_frames)` check and the row layout
`description, cmd, argc, arg0 .. argN`, is `processActions`; the
pandas boolean-mask selection
`raw_data[raw_data["Time"].astype(int) == time_s]["Data"]`
is `usbFrames`, built from an explicit mask as pandas does.
-/

namespace RazerExtract

/-- A character is an ASCII hexadecimal digit. -/
def isHexDigit (c : Char) : Bool :=
  (decide ('0' ≤ c) && decide (c ≤ '9')) ||
  (decide ('a' ≤ c) && decide (c ≤ 'f')) ||
  (decide ('A' ≤ c) && decide (c ≤ 'F'))

/-- Numeric value of an ASCII hexadecimal digit, 0 on other characters. -/
def hexVal (c : Char) : Nat :=
  if decide ('0' ≤ c) && decide (c ≤ '9') then c.toNat - '0'.toNat
  else if decide ('a' ≤ c) && decide (c ≤ 'f') then c.toNat - 'a'.toNat + 10
  else if decide ('A' ≤ c) && decide (c ≤ 'F') then c.toNat - 'A'.toNat + 10
  else 0

/-- Base-16 value of a list of hexadecimal digits, most significant first. -/
def hexDigitsVal (l : List Char) : Nat :=
  l.foldl (fun a c => 16 * a + hexVal c) 0

/-- Parse a nonempty all-hex digit string; `none` otherwise. -/
def hexDigits (l : List Char) : Option Nat :=
  if l.isEmpty then none
  else if l.all isHexDigit then some (hexDigitsVal l) else none

/-- Whitespace characters stripped by the Python `int` parser. -/
def isPySpace (c : Char) : Bool :=
  (c == ' ') || (c == '\t') || (c == '\n') || (c == '\r') ||
  (c == '\x0b') || (c == '\x0c')

/-- Strip leading and trailing whitespace, as Python `int` does. -/
def stripSpaces (l : List Char) : List Char :=
  ((l.dropWhile isPySpace).reverse.dropWhile isPySpace).reverse

/-- Model of Python `int(s, 16)` on the short slices used by the script:
whitespace is stripped, an optional single leading sign is accepted, and
the rest must be a nonempty run of hexadecimal digits. -/
def pyIntHex (s : List Char) : Option Int :=
  match stripSpaces s with
  | [] => none
  | c :: rest =>
    if c = '+' then (hexDigits rest).map Int.ofNat
    else if c = '-' then (hexDigits rest).map (fun n => -(Int.ofNat n))
    else (hexDigits (c :: rest)).map Int.ofNat

/-- Python slice `s[a:b]` for non-negative bounds: total, silently
truncated at the end of the list. -/
def pySlice (l : List Char) (a b : Nat) : List Char :=
  (l.drop a).take (b - a)

/-- Result of decoding one frame: the verbatim command slice, the parsed
argument count as stored in the row, and the argument slices. -/
structure Decoded where
  cmd : List Char
  argc : Int
  args : List (List Char)
deriving DecidableEq

/-- The frame-decoding step of the loop body:
`argc = int(frame[10:12], 16)` (a raised `ValueError` is `none`),
`cmd = frame[12:16]`, and one two-character slice
`frame[16 + 2 * i : 16 + 2 * i + 2]` per `i` in `range(argc)`. -/
def decodeFrame (frame : List Char) : Option Decoded :=
  match pyIntHex (pySlice frame 10 12) with
  | none => none
  | some a =>
    some ⟨pySlice frame 12 16, a,
          (List.range a.toNat).map (fun i => pySlice frame (16 + 2 * i) (16 + 2 * i + 2))⟩

/-- A cell of the output table: the script mixes strings and the integer
`argc` in one row. -/
inductive Cell where
  | str : List Char → Cell
  | int : Int → Cell
deriving DecidableEq

/-- One row of the raw capture CSV: the `Time` column (a non-negative
fractional timestamp, modelled as a rational) and the `Data` column. -/
structure RawRecord where
  time : Rat
  data : List Char
deriving DecidableEq

/-- One row of the annotations CSV: integer timestamp and description. -/
structure Action where
  time : Int
  descr : List Char
deriving DecidableEq

/-- `astype(int)` on the `Time` column: truncation toward zero, dropping
the fractional part. -/
def ratTrunc (q : Rat) : Int :=
  if 0 ≤ q then Int.ofNat (q.num.toNat / q.den)
  else -Int.ofNat ((-q).num.toNat / (-q).den)

/-- pandas boolean-mask row selection `df[mask]`: keep the rows whose
mask entry is true, in order. -/
def maskSelect {α : Type} : List α → List Bool → List α
  | [], _ => []
  | _ :: _, [] => []
  | x :: xs, b :: bs => if b then x :: maskSelect xs bs else maskSelect xs bs

/-- `(raw_data[raw_data["Time"].astype(int) == time_s])["Data"]`:
build the boolean mask over the `Time` column, select, project `Data`. -/
def usbFrames (raw : List RawRecord) (t : Int) : List (List Char) :=
  (maskSelect raw (raw.map (fun r => ratTrunc r.time == t))).map (fun r => r.data)

/-- The cells the loop body appends for one decoded frame:
`row += [cmd, argc]` then one cell per argument slice. -/
def frameCells (d : Decoded) : List Cell :=
  [Cell.str d.cmd, Cell.int d.argc] ++ d.args.map Cell.str

/-- The inner frame loop: starting from the pending row prefix (the
description for the first frame, the empty string afterwards), decode
each frame and emit one row per frame; a decode failure aborts. -/
def processFrames (row : List Cell) (frames : List (List Char)) :
    Option (List (List Cell)) :=
  match frames with
  | [] => some []
  | f :: fs =>
    match decodeFrame f with
    | none => none
    | some d =>
      (processFrames [Cell.str []] fs).map (fun rest => (row ++ frameCells d) :: rest)

/-- The header row the table is initialised with. -/
def headerRow : List Cell :=
  [Cell.str ['a', 'c', 't', 'i', 'o', 'n'], Cell.str ['c', 'm', 'd'],
   Cell.str ['a', 'r', 'g', 'c'], Cell.str ['a', 'r', 'g', '0'],
   Cell.str ['a', 'r', 'g', '1'], Cell.str ['a', 'r', 'g', '2'],
   Cell.str ['a', 'r', 'g', '3']]

/-- The outer annotation loop: for each action select the matching
frames, fail on the `assert len(usb_frames)` check when none match,
decode them, and append the rows in order. -/
def processActions (raw : List RawRecord) : List Action → Option (List (List Cell))
  | [] => some []
  | a :: rest =>
    if usbFrames raw a.time = [] then none
    else
      match processFrames [Cell.str a.descr] (usbFrames raw a.time) with
      | none => none
      | some rows => (processActions raw rest).map (fun more => rows ++ more)

/-- The whole run: header row plus the appended rows; `none` means the
script aborted (assertion failure or `ValueError`) and the print and
clipboard steps after the loop never execute, so no output is produced. -/
def run (raw : List RawRecord) (acts : List Action) : Option (List (List Cell)) :=
  (processActions raw acts).map (fun rows => headerRow :: rows)

/-- The block of rows one action contributes when it succeeds. -/
def actionRows (raw : List RawRecord) (a : Action) : List (List Cell) :=
  (processFrames [Cell.str a.descr] (usbFrames raw a.time)).getD []

/-- The row produced for one frame given the pending prefix cells. -/
def decRow (pre : List Cell) (f : List Char) : List Cell :=
  match decodeFrame f with
  | some d => pre ++ frameCells d
  | none => []

/-- Closed form of the rows `processFrames` yields when every frame
decodes: the prefix cells on the first row, the empty string after. -/
def rowsSpec (pre : List Cell) (frames : List (List Char)) : List (List Cell) :=
  match frames with
  | [] => []
  | f :: fs => decRow pre f :: rowsSpec [Cell.str []] fs

/-- The example frame of the spec: header aabbccddee, argc 03,
command abcd, arguments 01 02 03. -/
def exFrame : List Char :=
  ['a', 'a', 'b', 'b', 'c', 'c', 'd', 'd', 'e', 'e', '0', '3',
   'a', 'b', 'c', 'd', '0', '1', '0', '2', '0', '3']

/-- A frame that is too short for its declared argument count (20
characters, argc 3 needs 22) and has non-hex characters at the command
offsets. -/
def shortFrame : List Char :=
  ['a', 'a', 'b', 'b', 'c', 'c', 'd', 'd', 'e', 'e', '0', '3',
   'z', 'z', 'z', 'z', '0', '1', '0', '2']

/-- A frame declaring five arguments, above the four columns the header
names. -/
def fiveFrame : List Char :=
  ['a', 'a', 'b', 'b', 'c', 'c', 'd', 'd', 'e', 'e', '0', '5',
   'a', 'b', 'c', 'd', '0', '1', '0', '2', '0', '3', '0', '4', '0', '5']

/-- A capture with two records in second 12, one at 12.0 and one at
12.5, both carrying the example frame. -/
def exRaw : List RawRecord := [⟨(12 : Rat), exFrame⟩, ⟨mkRat 25 2, exFrame⟩]

/-- One annotated action at second 12. -/
def exActs : List Action := [⟨12, ['f', 'a', 'n']⟩]

/-- The table the run produces on `exRaw` and `exActs`. -/
def exTable : List (List Cell) :=
  [headerRow,
   [Cell.str ['f', 'a', 'n'], Cell.str ['a', 'b', 'c', 'd'], Cell.int 3,
    Cell.str ['0', '1'], Cell.str ['0', '2'], Cell.str ['0', '3']],
   [Cell.str [], Cell.str ['a', 'b', 'c', 'd'], Cell.int 3,
    Cell.str ['0', '1'], Cell.str ['0', '2'], Cell.str ['0', '3']]]

section Lemmas

lemma length_pySlice (l : List Char) (a b : Nat) :
    (pySlice l a b).length = min (b - a) (l.length - a) := by
  simp [pySlice]

lemma pySlice_length_of_le (l : List Char) (a b : Nat) (hab : a ≤ b)
    (hb : b ≤ l.length) : (pySlice l a b).length = b - a := by
  rw [length_pySlice]; omega

lemma mem_pySlice {l : List Char} {a b : Nat} {c : Char}
    (h : c ∈ pySlice l a b) : c ∈ l :=
  List.drop_subset a l (List.take_subset _ _ h)

lemma hex_not_space {c : Char} (h : isHexDigit c = true) : isPySpace c = false := by
  cases hs : isPySpace c
  · rfl
  · exfalso
    simp only [isPySpace, Bool.or_eq_true, beq_iff_eq] at hs
    rcases hs with ((((h1 | h1) | h1) | h1) | h1) | h1 <;> subst h1 <;>
      revert h <;> decide

lemma hex_ne_plus {c : Char} (h : isHexDigit c = true) : ¬c = '+' := by
  intro e; subst e; revert h; decide

lemma hex_ne_dash {c : Char} (h : isHexDigit c = true) : ¬c = '-' := by
  intro e; subst e; revert h; decide

lemma stripSpaces_of_hex {l : List Char} (h : l.all isHexDigit = true) :
    stripSpaces l = l := by
  have hmem : ∀ c ∈ l, isHexDigit c = true := List.all_eq_true.mp h
  have h1 : l.dropWhile isPySpace = l := by
    cases l with
    | nil => rfl
    | cons c cs =>
      rw [List.dropWhile_cons,
          hex_not_space (hmem c (List.mem_cons_self c cs))]
      simp
  have h2 : l.reverse.dropWhile isPySpace = l.reverse := by
    cases hr : l.reverse with
    | nil => rfl
    | cons c cs =>
      have hc : c ∈ l := by
        have : c ∈ l.reverse := by rw [hr]; exact List.mem_cons_self c cs
        simpa using this
      rw [List.dropWhile_cons, hex_not_space (hmem c hc)]
      simp
  rw [stripSpaces, h1, h2, List.reverse_reverse]

lemma pyIntHex_of_hex {l : List Char} (h0 : l ≠ [])
    (h1 : l.all isHexDigit = true) :
    pyIntHex l = some (Int.ofNat (hexDigitsVal l)) := by
  obtain ⟨c, cs, rfl⟩ := List.exists_cons_of_ne_nil h0
  have hc : isHexDigit c = true :=
    (List.all_eq_true.mp h1) c (List.mem_cons_self c cs)
  have e : stripSpaces (c :: cs) = c :: cs := stripSpaces_of_hex h1
  simp only [pyIntHex, e, if_neg (hex_ne_plus hc), if_neg (hex_ne_dash hc)]
  simp [hexDigits, h1]

lemma ofNat_toNat_eq (n : Nat) : (Int.ofNat n).toNat = n := rfl

lemma decodeFrame_eq_some {frame : List Char} {a : Int}
    (h : pyIntHex (pySlice frame 10 12) = some a) :
    decodeFrame frame =
      some ⟨pySlice frame 12 16, a,
            (List.range a.toNat).map
              (fun i => pySlice frame (16 + 2 * i) (16 + 2 * i + 2))⟩ := by
  simp [decodeFrame, h]

end Lemmas

section SliceLemmas

lemma slice_mid (pre mid post : List Char) (a b : Nat) (ha : pre.length = a)
    (hb : b = a + mid.length) :
    pySlice (pre ++ (mid ++ post)) a b = mid := by
  subst ha; subst hb
  have e : pre.length + mid.length - pre.length = mid.length := by omega
  rw [pySlice, e, List.drop_left, List.take_left]

lemma slice_flatten (L : List (List Char)) (h2 : ∀ x ∈ L, x.length = 2)
    (pre : List Char) (i : Nat) (hi : i < L.length) :
    pySlice (pre ++ L.flatten) (pre.length + 2 * i) (pre.length + 2 * i + 2) =
      L.getD i [] := by
  induction L generalizing pre i with
  | nil => simp at hi
  | cons x xs ih =>
    have hx : x.length = 2 := h2 x (List.mem_cons_self x xs)
    cases i with
    | zero =>
      simp only [List.flatten_cons, Nat.mul_zero, Nat.add_zero, List.getD_cons_zero]
      exact slice_mid pre x xs.flatten pre.length (pre.length + 2) rfl (by omega)
    | succ j =>
      have e1 : pre ++ (x :: xs).flatten = (pre ++ x) ++ xs.flatten := by
        rw [List.flatten_cons, List.append_assoc]
      have e2 : pre.length + 2 * (j + 1) = (pre ++ x).length + 2 * j := by
        simp only [List.length_append, hx]; omega
      rw [e1, e2, List.getD_cons_succ]
      exact ih (fun y hy => h2 y (List.mem_cons_of_mem x hy)) (pre ++ x) j
        (by simpa using Nat.lt_of_succ_lt_succ (by simpa using hi))

end SliceLemmas

/-- Claim C1: for every valid frame, a hex-digit string long enough for
the argument count declared at offset 10, decoding succeeds and yields
the verbatim four-character command slice at offsets 12 to 16 and
exactly argc arguments, each a two-hex-digit slice, in frame order. -/
theorem claim_C1 (frame : List Char)
    (hhex : frame.all isHexDigit = true)
    (hlen : 16 + 2 * hexDigitsVal (pySlice frame 10 12) ≤ frame.length) :
    ∃ d, decodeFrame frame = some d ∧
      d.cmd = pySlice frame 12 16 ∧ d.cmd.length = 4 ∧
      d.argc = Int.ofNat (hexDigitsVal (pySlice frame 10 12)) ∧
      d.args.length = hexDigitsVal (pySlice frame 10 12) ∧
      (∀ a ∈ d.args, a.length = 2 ∧ a.all isHexDigit = true) ∧
      (∀ i, i < d.args.length →
        d.args.getD i [] = pySlice frame (16 + 2 * i) (16 + 2 * i + 2)) := by
  set n := hexDigitsVal (pySlice frame 10 12) with hn
  have hsl : (pySlice frame 10 12).length = 2 :=
    pySlice_length_of_le frame 10 12 (by omega) (by omega)
  have hne : pySlice frame 10 12 ≠ [] := by
    intro e; rw [e] at hsl; simp at hsl
  have hall : (pySlice frame 10 12).all isHexDigit = true := by
    rw [List.all_eq_true]
    exact fun c hc => (List.all_eq_true.mp hhex) c (mem_pySlice hc)
  have hp : pyIntHex (pySlice frame 10 12) = some (Int.ofNat n) := by
    rw [pyIntHex_of_hex hne hall]
  refine ⟨_, decodeFrame_eq_some hp, rfl, ?_, rfl, ?_, ?_, ?_⟩
  · exact pySlice_length_of_le frame 12 16 (by omega) (by omega)
  · simp
  · intro a ha
    simp only [List.mem_map, List.mem_range, ofNat_toNat_eq] at ha
    obtain ⟨i, hi, rfl⟩ := ha
    refine ⟨?_, ?_⟩
    · have hsl2 := pySlice_length_of_le frame (16 + 2 * i) (16 + 2 * i + 2)
        (by omega) (by omega)
      omega
    rw [List.all_eq_true]
    exact fun c hc => (List.all_eq_true.mp hhex) c (mem_pySlice hc)
  · intro i hi
    simp only [List.length_map, List.length_range, ofNat_toNat_eq] at hi
    rw [List.getD_eq_getElem _ _ (by simpa [ofNat_toNat_eq] using hi)]
    simp [ofNat_toNat_eq]

/-- Claim C1 witness: the example frame aabbccddee03abcd010203. -/
theorem claim_C1_witness :
    ∃ d, decodeFrame exFrame = some d ∧
      d.cmd = pySlice exFrame 12 16 ∧ d.cmd.length = 4 ∧
      d.argc = Int.ofNat (hexDigitsVal (pySlice exFrame 10 12)) ∧
      d.args.length = hexDigitsVal (pySlice exFrame 10 12) ∧
      (∀ a ∈ d.args, a.length = 2 ∧ a.all isHexDigit = true) ∧
      (∀ i, i < d.args.length →
        d.args.getD i [] = pySlice exFrame (16 + 2 * i) (16 + 2 * i + 2)) :=
  claim_C1 exFrame (by decide) (by decide)

/-- Claim C2 counterexample: a frame 20 characters long whose declared
argument count 3 would require 22, with non-hex characters at the
command offsets, on which decoding nevertheless succeeds, returning the
verbatim command and truncated or empty argument slices. -/
theorem claim_C2_counterexample :
    shortFrame.length < 16 + 2 * 3 ∧
    pyIntHex (pySlice shortFrame 10 12) = some (3 : Int) ∧
    (pySlice shortFrame 12 16).all isHexDigit = false ∧
    decodeFrame shortFrame =
      some ⟨['z', 'z', 'z', 'z'], 3, [['0', '1'], ['0', '2'], []]⟩ := by
  decide

/-- Claim C2, amended: decoding fails exactly when the argument-count
slice at offsets 10 to 12 does not parse as a base-16 integer; a frame
shorter than 16 + 2 * argc, or non-hex characters at the command
offsets, never cause a failure because slicing silently truncates. -/
theorem claim_C2_amended (frame : List Char) :
    decodeFrame frame = none ↔ pyIntHex (pySlice frame 10 12) = none := by
  cases h : pyIntHex (pySlice frame 10 12) <;> simp [decodeFrame, h]

/-- Claim C2 witness: the amended equivalence at the short frame. -/
theorem claim_C2_witness :
    (decodeFrame shortFrame = none ↔
      pyIntHex (pySlice shortFrame 10 12) = none) :=
  claim_C2_amended shortFrame

/-- Claim C3: decoding a synthetically concatenated frame, ten header
hex digits, a two-hex-digit count whose value is the number of
arguments, four command hex digits, and the two-hex-digit arguments,
recovers exactly the count, the command, and the argument list. -/
theorem claim_C3 (hd10 nstr cmd4 : List Char) (args : List (List Char))
    (hh : hd10.length = 10) (_hhx : hd10.all isHexDigit = true)
    (hn2 : nstr.length = 2) (hnx : nstr.all isHexDigit = true)
    (hc4 : cmd4.length = 4) (_hcx : cmd4.all isHexDigit = true)
    (ha2 : ∀ a ∈ args, a.length = 2)
    (_hax : ∀ a ∈ args, a.all isHexDigit = true)
    (hval : hexDigitsVal nstr = args.length) :
    decodeFrame (hd10 ++ (nstr ++ (cmd4 ++ args.flatten))) =
      some ⟨cmd4, Int.ofNat args.length, args⟩ := by
  set F := hd10 ++ (nstr ++ (cmd4 ++ args.flatten)) with hF
  have s1 : pySlice F 10 12 = nstr :=
    slice_mid hd10 nstr _ 10 12 hh (by omega)
  have s2 : pySlice F 12 16 = cmd4 := by
    have e : F = (hd10 ++ nstr) ++ (cmd4 ++ args.flatten) := by
      rw [hF, List.append_assoc]
    rw [e]
    exact slice_mid (hd10 ++ nstr) cmd4 _ 12 16 (by simp [hh, hn2])
      (by simp [hc4])
  have hne : nstr ≠ [] := by intro e; rw [e] at hn2; simp at hn2
  have hp : pyIntHex (pySlice F 10 12) = some (Int.ofNat args.length) := by
    rw [s1, pyIntHex_of_hex hne hnx, hval]
  rw [decodeFrame_eq_some hp, s2]
  simp only [Option.some.injEq, Decoded.mk.injEq, true_and]
  apply List.ext_getElem
  · simp
  · intro i h1 h2
    simp only [List.length_map, List.length_range, ofNat_toNat_eq] at h1
    simp only [List.getElem_map, List.getElem_range]
    have e : F = (hd10 ++ (nstr ++ cmd4)) ++ args.flatten := by
      rw [hF]; simp [List.append_assoc]
    have hpre : (hd10 ++ (nstr ++ cmd4)).length = 16 := by
      simp [hh, hn2, hc4]
    have hs := slice_flatten args ha2 (hd10 ++ (nstr ++ cmd4)) i h1
    rw [hpre] at hs
    rw [e, hs]
    exact List.getD_eq_getElem args [] h2

/-- Claim C3 witness: the example of the spec, frame
aabbccddee03abcd010203 decoding to command abcd with arguments
01 02 03. -/
theorem claim_C3_witness :
    decodeFrame (['a', 'a', 'b', 'b', 'c', 'c', 'd', 'd', 'e', 'e'] ++
        (['0', '3'] ++ (['a', 'b', 'c', 'd'] ++
          ([['0', '1'], ['0', '2'], ['0', '3']] : List (List Char)).flatten))) =
      some ⟨['a', 'b', 'c', 'd'], Int.ofNat 3,
            [['0', '1'], ['0', '2'], ['0', '3']]⟩ :=
  claim_C3 _ _ _ _ (by decide) (by decide) (by decide) (by decide) (by decide)
    (by decide) (by decide) (by decide) (by decide)

/-- Claim C7: the decoding step is deterministic, two results obtained
from the same frame are equal; side-effect freedom holds because the
embedding of the loop body is a pure function of the frame alone. -/
theorem claim_C7 (f : List Char) (r1 r2 : Option Decoded)
    (h1 : decodeFrame f = r1) (h2 : decodeFrame f = r2) : r1 = r2 :=
  h1.symm.trans h2

/-- Claim C7 witness: two decodings of the example frame agree. -/
theorem claim_C7_witness :
    (some (⟨['a', 'b', 'c', 'd'], 3, [['0', '1'], ['0', '2'], ['0', '3']]⟩
        : Decoded) : Option Decoded) =
      some ⟨['a', 'b', 'c', 'd'], 3, [['0', '1'], ['0', '2'], ['0', '3']]⟩ :=
  claim_C7 exFrame _ _ (by decide) (by decide)

/-- Claim C8: slicing is total, decoding succeeds exactly when the
argument-count slice parses, regardless of the total length; the
command is the verbatim slice of width at most four and every argument
slice has width at most two. -/
theorem claim_C8 (frame : List Char) :
    ((decodeFrame frame).isSome ↔ (pyIntHex (pySlice frame 10 12)).isSome) ∧
    (pySlice frame 10 12 ≠ [] → (pySlice frame 10 12).all isHexDigit = true →
      (decodeFrame frame).isSome) ∧
    (∀ d, decodeFrame frame = some d →
      d.cmd = pySlice frame 12 16 ∧ d.cmd.length ≤ 4 ∧
      ∀ a ∈ d.args, a.length ≤ 2) := by
  refine ⟨?_, ?_, ?_⟩
  · cases h : pyIntHex (pySlice frame 10 12) <;> simp [decodeFrame, h]
  · intro h0 h1
    rw [decodeFrame, pyIntHex_of_hex h0 h1]
    simp
  · intro d hd
    cases h : pyIntHex (pySlice frame 10 12) with
    | none => rw [decodeFrame, h] at hd; simp at hd
    | some a =>
      rw [decodeFrame_eq_some h] at hd
      obtain rfl := (Option.some.inj hd).symm
      refine ⟨rfl, List.length_take_le _ _, ?_⟩
      intro x hx
      simp only [List.mem_map, List.mem_range] at hx
      obtain ⟨i, _, rfl⟩ := hx
      rw [length_pySlice]
      omega

/-- Claim C8 witness: the equivalence and the width bounds at the short
frame with non-hex command characters. -/
theorem claim_C8_witness :
    ((decodeFrame shortFrame).isSome ↔
      (pyIntHex (pySlice shortFrame 10 12)).isSome) ∧
    (pySlice shortFrame 10 12 ≠ [] →
      (pySlice shortFrame 10 12).all isHexDigit = true →
      (decodeFrame shortFrame).isSome) ∧
    (∀ d, decodeFrame shortFrame = some d →
      d.cmd = pySlice shortFrame 12 16 ∧ d.cmd.length ≤ 4 ∧
      ∀ a ∈ d.args, a.length ≤ 2) :=
  claim_C8 shortFrame

/-- Claim C9: no ceiling on the argument count, whenever the count field
parses to n the decoder appends exactly n argument slices, even though
the header row names only seven columns, four of them arguments. -/
theorem claim_C9 (frame : List Char) (n : Nat)
    (h : pyIntHex (pySlice frame 10 12) = some (Int.ofNat n)) :
    ∃ d, decodeFrame frame = some d ∧ d.args.length = n ∧
      headerRow.length = 7 :=
  ⟨_, decodeFrame_eq_some h, by simp, rfl⟩

/-- Claim C9 witness: a frame declaring five arguments, above the four
argument columns of the header. -/
theorem claim_C9_witness :
    ∃ d, decodeFrame fiveFrame = some d ∧ d.args.length = 5 ∧
      headerRow.length = 7 :=
  claim_C9 fiveFrame 5 (by decide)

section JoinLemmas

lemma maskSelect_self_map {α : Type} (p : α → Bool) (l : List α) :
    maskSelect l (l.map p) = l.filter p := by
  induction l with
  | nil => rfl
  | cons x xs ih =>
    cases hx : p x <;> simp [maskSelect, List.filter_cons, hx, ih]

lemma processFrames_eq_rowsSpec :
    ∀ (frames : List (List Char)),
      (∀ f ∈ frames, decodeFrame f ≠ none) → ∀ pre : List Cell,
      processFrames pre frames = some (rowsSpec pre frames)
  | [], _, _ => rfl
  | f :: fs, h, pre => by
    have ih := processFrames_eq_rowsSpec fs
      (fun g hg => h g (List.mem_cons_of_mem f hg)) [Cell.str []]
    cases hd : decodeFrame f with
    | none => exact absurd hd (h f (List.mem_cons_self f fs))
    | some d => simp [processFrames, rowsSpec, decRow, hd, ih]

lemma rowsSpec_length :
    ∀ (frames : List (List Char)) (pre : List Cell),
      (rowsSpec pre frames).length = frames.length
  | [], _ => rfl
  | f :: fs, pre => by
    simp [rowsSpec, rowsSpec_length fs [Cell.str []]]

lemma rowsSpec_getD :
    ∀ (frames : List (List Char)) (i : Nat), i < frames.length →
      (∀ f ∈ frames, decodeFrame f ≠ none) → ∀ pre : List Cell,
      ∃ d, decodeFrame (frames.getD i []) = some d ∧
        (rowsSpec pre frames).getD i [] =
          (if i = 0 then pre else [Cell.str []]) ++ frameCells d
  | [], i, hi, _, _ => absurd hi (by simp)
  | f :: fs, 0, _, h, pre => by
    cases hd : decodeFrame f with
    | none => exact absurd hd (h f (List.mem_cons_self f fs))
    | some d =>
      exact ⟨d, by simpa using hd, by simp [rowsSpec, decRow, hd]⟩
  | f :: fs, (j + 1), hi, h, pre => by
    obtain ⟨d, hd, he⟩ := rowsSpec_getD fs j
      (by simp only [List.length_cons] at hi; omega)
      (fun g hg => h g (List.mem_cons_of_mem f hg)) [Cell.str []]
    refine ⟨d, by simpa using hd, ?_⟩
    simp only [rowsSpec, List.getD_cons_succ]
    rw [he]
    simp

lemma processFrames_length :
    ∀ (frames : List (List Char)) (pre : List Cell) (rows : List (List Cell)),
      processFrames pre frames = some rows → rows.length = frames.length
  | [], _, rows, h => by
    simp only [processFrames, Option.some.injEq] at h
    subst h; rfl
  | f :: fs, pre, rows, h => by
    simp only [processFrames] at h
    cases hd : decodeFrame f with
    | none => rw [hd] at h; exact absurd h (by simp)
    | some d =>
      rw [hd] at h
      cases hrest : processFrames [Cell.str []] fs with
      | none => rw [hrest] at h; exact absurd h (by simp)
      | some rest =>
        rw [hrest] at h
        simp only [Option.map_some', Option.some.injEq] at h
        subst h
        simp [processFrames_length fs [Cell.str []] rest hrest]

lemma processActions_none :
    ∀ (acts : List Action) (raw : List RawRecord) (a : Action),
      a ∈ acts → usbFrames raw a.time = [] →
      processActions raw acts = none
  | [], _, _, ha, _ => absurd ha (by simp)
  | b :: rest, raw, a, ha, hz => by
    rcases List.mem_cons.mp ha with rfl | hmem
    · simp [processActions, hz]
    · simp only [processActions]
      split
      · rfl
      · cases hpf : processFrames [Cell.str b.descr] (usbFrames raw b.time) with
        | none => rfl
        | some rows =>
          rw [processActions_none rest raw a hmem hz]
          rfl

lemma processActions_some :
    ∀ (acts : List Action) (raw : List RawRecord) (rows : List (List Cell)),
      processActions raw acts = some rows →
      rows = (acts.map (actionRows raw)).flatten ∧
      ∀ a ∈ acts, ∃ r,
        processFrames [Cell.str a.descr] (usbFrames raw a.time) = some r
  | [], _, rows, h => by
    simp only [processActions, Option.some.injEq] at h
    subst h; exact ⟨rfl, by simp⟩
  | b :: rest, raw, rows, h => by
    simp only [processActions] at h
    split at h
    · exact absurd h (by simp)
    · cases hpf : processFrames [Cell.str b.descr] (usbFrames raw b.time) with
      | none => rw [hpf] at h; exact absurd h (by simp)
      | some r =>
        rw [hpf] at h
        cases hrest : processActions raw rest with
        | none => rw [hrest] at h; exact absurd h (by simp)
        | some more =>
          rw [hrest] at h
          simp only [Option.map_some', Option.some.injEq] at h
          obtain ⟨h1, h2⟩ := processActions_some rest raw more hrest
          subst h
          refine ⟨by simp [actionRows, hpf, h1], ?_⟩
          intro a hmem
          rcases List.mem_cons.mp hmem with rfl | hmem2
          · exact ⟨r, hpf⟩
          · exact h2 a hmem2

end JoinLemmas

/-- Claim C4: an annotated action whose timestamp matches no captured
frame makes the whole run abort on the assertion, returning no table at
all, so neither the print step nor the clipboard export ever runs. -/
theorem claim_C4 (raw : List RawRecord) (acts : List Action) (a : Action)
    (ha : a ∈ acts) (hz : usbFrames raw a.time = []) :
    run raw acts = none := by
  rw [run, processActions_none acts raw a ha hz]
  rfl

/-- Claim C4 witness: one action against an empty capture aborts. -/
theorem claim_C4_witness : run [] exActs = none :=
  claim_C4 [] exActs ⟨12, ['f', 'a', 'n']⟩ (by decide) (by decide)

/-- Claim C5: an action with a nonempty description matching k frames,
all of which decode, contributes exactly k rows; the description cell is
the nonempty description on exactly the first row and the empty string
on the others, and each row carries the cells decoded from its own
frame. -/
theorem claim_C5 (raw : List RawRecord) (a : Action) (k : Nat)
    (hne : a.descr ≠ [])
    (hk : (usbFrames raw a.time).length = k) (_hk1 : 1 ≤ k)
    (hdec : ∀ f ∈ usbFrames raw a.time, decodeFrame f ≠ none) :
    ∃ rows,
      processFrames [Cell.str a.descr] (usbFrames raw a.time) = some rows ∧
      rows.length = k ∧
      (∀ i, i < k → ∃ d,
        decodeFrame ((usbFrames raw a.time).getD i []) = some d ∧
        rows.getD i [] =
          Cell.str (if i = 0 then a.descr else []) :: frameCells d) ∧
      (∀ i, i < k →
        ((rows.getD i []).getD 0 (Cell.str []) = Cell.str a.descr ↔ i = 0)) := by
  refine ⟨rowsSpec [Cell.str a.descr] (usbFrames raw a.time),
    processFrames_eq_rowsSpec _ hdec _,
    by rw [rowsSpec_length]; exact hk, ?_, ?_⟩
  · intro i hi
    obtain ⟨d, hdi, he⟩ := rowsSpec_getD (usbFrames raw a.time) i (by omega)
      hdec [Cell.str a.descr]
    refine ⟨d, hdi, ?_⟩
    rw [he]
    by_cases h0 : i = 0 <;> simp [h0]
  · intro i hi
    obtain ⟨d, _, he⟩ := rowsSpec_getD (usbFrames raw a.time) i (by omega)
      hdec [Cell.str a.descr]
    rw [he]
    by_cases h0 : i = 0
    · simp [h0]
    · simp [h0, Cell.str.injEq, Ne.symm hne]

/-- Claim C5 witness: the action at second 12 against the two-record
capture, two rows, description on the first row only. -/
theorem claim_C5_witness :
    ∃ rows,
      processFrames [Cell.str ['f', 'a', 'n']] (usbFrames exRaw 12) = some rows ∧
      rows.length = 2 ∧
      (∀ i, i < 2 → ∃ d,
        decodeFrame ((usbFrames exRaw 12).getD i []) = some d ∧
        rows.getD i [] =
          Cell.str (if i = 0 then ['f', 'a', 'n'] else []) :: frameCells d) ∧
      (∀ i, i < 2 →
        ((rows.getD i []).getD 0 (Cell.str []) = Cell.str ['f', 'a', 'n'] ↔
          i = 0)) :=
  claim_C5 exRaw ⟨12, ['f', 'a', 'n']⟩ 2 (by decide) (by decide) (by decide)
    (by decide)

/-- Claim C6: the frames joined to an action are exactly the raw records
whose Time value truncated to an integer equals the action timestamp, in
capture order, none omitted and none extra. -/
theorem claim_C6 (raw : List RawRecord) (t : Int) :
    usbFrames raw t =
      (raw.filter (fun r => ratTrunc r.time == t)).map (fun r => r.data) ∧
    ∀ f, f ∈ usbFrames raw t ↔
      ∃ r, r ∈ raw ∧ ratTrunc r.time = t ∧ r.data = f := by
  have hsel : usbFrames raw t =
      (raw.filter (fun r => ratTrunc r.time == t)).map (fun r => r.data) := by
    rw [usbFrames, maskSelect_self_map]
  refine ⟨hsel, fun f => ?_⟩
  rw [hsel]
  simp only [List.mem_map, List.mem_filter, beq_iff_eq]
  constructor
  · rintro ⟨r, ⟨hr, ht⟩, hdata⟩
    exact ⟨r, hr, ht, hdata⟩
  · rintro ⟨r, hr, ht, hdata⟩
    exact ⟨r, ⟨hr, ht⟩, hdata⟩

/-- Claim C6 witness: on the two-record capture, second 12 selects both
records, the one at 12.0 and the one at 12.5. -/
theorem claim_C6_witness :
    usbFrames exRaw 12 =
      (exRaw.filter (fun r => ratTrunc r.time == 12)).map (fun r => r.data) :=
  (claim_C6 exRaw 12).1

/-- Claim C10: whenever the run produces a table, it is the header row
followed by the row blocks of the actions in annotation order, each
block holding one row per matching frame in capture order; rows are only
appended, never reordered or removed. -/
theorem claim_C10 (raw : List RawRecord) (acts : List Action)
    (t : List (List Cell)) (h : run raw acts = some t) :
    t = headerRow :: (acts.map (actionRows raw)).flatten ∧
    ∀ a ∈ acts, (actionRows raw a).length = (usbFrames raw a.time).length := by
  rw [run] at h
  cases hpa : processActions raw acts with
  | none => rw [hpa] at h; exact absurd h (by simp)
  | some rows =>
    rw [hpa] at h
    simp only [Option.map_some', Option.some.injEq] at h
    obtain ⟨h1, h2⟩ := processActions_some acts raw rows hpa
    subst h
    refine ⟨by rw [h1], ?_⟩
    intro a hmem
    obtain ⟨r, hr⟩ := h2 a hmem
    rw [actionRows, hr, Option.getD_some]
    exact processFrames_length _ _ _ hr

/-- Claim C10 witness: the concrete run on the two-record capture and
the single action produces the header and the two rows in order. -/
theorem claim_C10_witness :
    exTable = headerRow :: (exActs.map (actionRows exRaw)).flatten ∧
    ∀ a ∈ exActs,
      (actionRows exRaw a).length = (usbFrames exRaw a.time).length :=
  claim_C10 exRaw exActs exTable (by decide)

end RazerExtract
